import Mathlib

/-!
# kwun: the module registry and the OneLink profile codec

A shallow embedding of `src/modules/index.js` (the registry of tool modules and
its three route queries) and of `src/utils/onelink.js` (`encodeProfile` and
`decodeProfile`), followed by the properties proved about them.

JavaScript values that the code handles are embedded as follows.

* `null` and `undefined` results are `Option.none`; where the code tells the two
  apart the embedding says so next to the definition.
* A call that can throw returns `Except JSError _`, and `try { .. } catch { .. }`
  is the combinator `tryCatch`.
* Text is `String`.
* `onelink.js` calls two collaborators that are not part of the repository
  sources, the global `JSON` and the import `LZString`. `encodeProfile` and
  `decodeProfile` take them as parameters; what a theorem needs of them is a
  hypothesis, stated as a contract of section 6 of the specification. A
  reference serializer and a reference transform show that the contracts can
  be met.
* Where a property depends on what lz-string itself returns, the transform is
  `lzString`, a transcription of the two functions of the library.
-/

namespace Kwun

/-! ## `src/modules/index.js` -/

/-- An entry of the `modules` array. `icon` and `component` are imported
objects; the embedding keeps the name under which each one is imported. -/
structure Module where
  id : String
  name : String
  route : String
  icon : String
  component : String
  description : String
  deriving DecidableEq, Repr

/-- The registry `modules` (index.js, lines 25-58). -/
def modules : List Module :=
  [ { id := "image-analyzer"
      name := "Image Analyzer"
      route := "image-analyzer"
      icon := "FileImage"
      component := "ImageAnalyzer"
      description := "Analyze images with AI-powered vision capabilities" },
    { id := "json-formatter"
      name := "JSON Formatter"
      route := "json-formatter"
      icon := "Braces"
      component := "JSONFormatter"
      description := "Format, validate, and analyze JSON data" },
    { id := "qr-generator"
      name := "QR Generator"
      route := "qr-generator"
      icon := "QrCode"
      component := "QRCodeGenerator"
      description := "Generate QR codes for URLs and text" },
    { id := "base64-tool"
      name := "Base64 Tool"
      route := "base64-tool"
      icon := "Binary"
      component := "Base64Tool"
      description := "Encode and decode text to/from Base64 format" } ]

/-- The expression `x || null` where `x` is the result of `Array.prototype.find`:
an object is truthy and is returned as it is, `undefined` becomes `null`.
Both `undefined` (on the left) and `null` (on the right) are `none`. -/
def orNull {α : Type} (x : Option α) : Option α :=
  match x with
  | some m => some m
  | none => none

/-- `getModuleByRoute(route)` (index.js, lines 65-67):
`modules.find(module => module.route === route) || null`. -/
def getModuleByRoute (route : String) : Option Module :=
  orNull (modules.find? (fun module => decide (module.route = route)))

/-- `getAllRoutes()` (index.js, lines 73-75): `modules.map(module => module.route)`. -/
def getAllRoutes : List String :=
  modules.map (fun module => module.route)

/-- `isValidRoute(route)` (index.js, lines 82-84):
`modules.some(module => module.route === route)`. -/
def isValidRoute (route : String) : Bool :=
  modules.any (fun module => decide (module.route = route))

/-! ## `src/utils/onelink.js`: values, faults and collaborators -/

/-- A fault thrown by a JavaScript call. -/
inductive JSError where
  | typeError (message : String)
  | syntaxError (message : String)
  | error (message : String)
  deriving DecidableEq, Repr

/-- The JavaScript values that reach the codec. `number` holds the
integer-valued numbers; `bigint` is a value that `JSON.stringify` refuses. -/
inductive JSValue where
  | undefined
  | null
  | bool (b : Bool)
  | number (n : Int)
  | bigint (n : Int)
  | string (s : String)
  | array (items : List JSValue)
  | object (fields : List (String × JSValue))
  deriving Repr

/-- The global `JSON` object as `onelink.js` uses it. `stringify` throws on a
value it cannot serialize and returns `undefined` (here `none`) for a value
that has no JSON text; `parse` throws a `SyntaxError` on invalid text. -/
structure StructuredSerializer where
  stringify : JSValue → Except JSError (Option String)
  parse : String → Except JSError JSValue

/-- The import `LZString` as `onelink.js` uses it. The argument of
`compressToEncodedURIComponent` is what `JSON.stringify` returned, a text or
`undefined` (`none`); `decompressFromEncodedURIComponent` returns a text or
`null` (`none`). Either call may throw. -/
structure CompactURLTransform where
  compressToEncodedURIComponent : Option String → Except JSError String
  decompressFromEncodedURIComponent : String → Except JSError (Option String)

/-- The statement `try { body } catch (error) { handler }`. -/
def tryCatch {ε α : Type} (body : Except ε α) (handler : ε → Except ε α) : Except ε α :=
  match body with
  | .ok v => .ok v
  | .error e => handler e

/-- `encodeProfile(data)` (onelink.js, lines 8-16). `console.error` only
writes to the console, which the embedding does not record. -/
def encodeProfile (LZString : CompactURLTransform) (JSON : StructuredSerializer)
    (data : JSValue) : Except JSError String :=
  tryCatch
    (match JSON.stringify data with
     | .error e => .error e
     | .ok jsonStr => LZString.compressToEncodedURIComponent jsonStr)
    (fun _error => .ok "")

/-- `decodeProfile(encodedStr)` (onelink.js, lines 23-32). `!jsonStr` holds
when `jsonStr` is `null` or the empty text. -/
def decodeProfile (LZString : CompactURLTransform) (JSON : StructuredSerializer)
    (encodedStr : String) : Except JSError JSValue :=
  tryCatch
    (match LZString.decompressFromEncodedURIComponent encodedStr with
     | .error e => .error e
     | .ok none => .ok JSValue.null
     | .ok (some jsonStr) =>
       if jsonStr = "" then .ok JSValue.null else JSON.parse jsonStr)
    (fun _error => .ok JSValue.null)

/-! ## The Profile of the specification -/

/-- An entry of `links`. -/
structure Link where
  title : String
  url : String
  deriving DecidableEq, Repr

/-- The Profile of the data model: three optional texts and the ordered links. -/
structure Profile where
  name : Option String
  bio : Option String
  avatarUrl : Option String
  links : List Link
  deriving DecidableEq, Repr

/-- The object `{ title, url }`. -/
def Link.toJS (l : Link) : JSValue :=
  .object [("title", .string l.title), ("url", .string l.url)]

/-- An optional text as a property list: an absent field has no property. -/
def optionalField (key : String) : Option String → List (String × JSValue)
  | none => []
  | some text => [(key, .string text)]

/-- The object that holds a Profile. -/
def Profile.toJS (p : Profile) : JSValue :=
  .object (optionalField "name" p.name ++ optionalField "bio" p.bio ++
    optionalField "avatarUrl" p.avatarUrl ++ [("links", .array (p.links.map Link.toJS))])

/-- The property read `v[key]`: `undefined` when `v` has no such property. -/
def JSValue.getProp (v : JSValue) (key : String) : JSValue :=
  match v with
  | .object fields => (fields.lookup key).getD .undefined
  | _ => .undefined

/-- The test `typeof v === 'object' && v !== null`: `v` is an object or an array. -/
def JSValue.isObject : JSValue → Bool
  | .array _ => true
  | .object _ => true
  | _ => false

/-- An optional text field: absent or a text. -/
def asOptionalText : JSValue → Option (Option String)
  | .undefined => some none
  | .string s => some (some s)
  | _ => none

/-- Reads a `{ title, url }` pair. -/
def Link.ofJS? (v : JSValue) : Option Link :=
  match v.getProp "title", v.getProp "url" with
  | .string t, .string u => some { title := t, url := u }
  | _, _ => none

/-- Reads a sequence of `{ title, url }` pairs. -/
def linksOfJS? : List JSValue → Option (List Link)
  | [] => some []
  | v :: rest =>
    match Link.ofJS? v, linksOfJS? rest with
    | some l, some ls => some (l :: ls)
    | _, _ => none

/-- Reads a value as a Profile, following section 3 of the specification: an
object whose `name`, `bio` and `avatarUrl` are each absent or a text and whose
`links` is a sequence of `{ title, url }` pairs. -/
def Profile.ofJS? (v : JSValue) : Option Profile :=
  match v with
  | .object _ =>
    match asOptionalText (v.getProp "name"), asOptionalText (v.getProp "bio"),
      asOptionalText (v.getProp "avatarUrl"), v.getProp "links" with
    | some n, some b, some a, .array items =>
      match linksOfJS? items with
      | some ls => some { name := n, bio := b, avatarUrl := a, links := ls }
      | none => none
    | _, _, _, _ => none
  | _ => none

/-- A value describes a well-formed Profile. -/
def JSValue.IsProfile (v : JSValue) : Prop :=
  ∃ p, Profile.ofJS? v = some p

/-! ## The contracts of the collaborators (specification, section 6) -/

/-- The serializer writes `v` as a non-empty text and reads that text back as `v`. -/
def StructuredSerializer.Faithful (S : StructuredSerializer) (v : JSValue) : Prop :=
  ∃ text, text ≠ "" ∧ S.stringify v = .ok (some text) ∧ S.parse text = .ok v

/-- The contract `compress(text) -> urlSafeText, always succeeds for any text`. -/
def CompactURLTransform.CompressSucceeds (L : CompactURLTransform) : Prop :=
  ∀ text, ∃ token, L.compressToEncodedURIComponent (some text) = .ok token

/-- The transform is lossless: decompressing a product of `compress` gives the text. -/
def CompactURLTransform.Lossless (L : CompactURLTransform) : Prop :=
  ∀ text token, L.compressToEncodedURIComponent (some text) = .ok token →
    L.decompressFromEncodedURIComponent token = .ok (some text)

/-- The contract `decompress` returns absent (not a fault) for any input that
is not a valid product of `compress`. -/
def CompactURLTransform.Strict (L : CompactURLTransform) : Prop :=
  ∀ token, (∀ text, L.compressToEncodedURIComponent (some text) ≠ .ok token) →
    L.decompressFromEncodedURIComponent token = .ok none

/-- The empty token decompresses to absent. -/
def CompactURLTransform.EmptyIsAbsent (L : CompactURLTransform) : Prop :=
  L.decompressFromEncodedURIComponent "" = .ok none

/-- Modelled from the spec: the URL-safe alphabet of the compression transform,
which is not part of the repository sources: letters, digits and the extra
symbols `+`, `-` and `$` (the constant `keyStrUriSafe` of lz-string). -/
def keyStrUriSafe : String :=
  "ABCDEFGHIJKLMNOPQRSTUVWXYZabcdefghijklmnopqrstuvwxyz0123456789+-$"

/-- Every character of every product of `compress` is in the alphabet. -/
def CompactURLTransform.UrlSafe (L : CompactURLTransform) : Prop :=
  ∀ input token, L.compressToEncodedURIComponent input = .ok token →
    ∀ c ∈ token.data, c ∈ keyStrUriSafe.data

/-- The characters `unreserved` of RFC 3986. -/
def isUnreserved (c : Char) : Bool :=
  c.isAlpha || c.isDigit || c = '-' || c = '.' || c = '_' || c = '~'

/-- The characters `sub-delims` of RFC 3986. -/
def isSubDelim (c : Char) : Bool :=
  c = '!' || c = '$' || c = '&' || c = '\x27' || c = '(' || c = ')' || c = '*' ||
    c = '+' || c = ',' || c = ';' || c = '='

/-- The characters that RFC 3986 allows as they are in a query or a fragment:
`pchar`, `/` and `?`. -/
def needsNoPercentEncoding (c : Char) : Bool :=
  isUnreserved c || isSubDelim c || c = ':' || c = '@' || c = '/' || c = '?'

/-! ## A reference serializer: `JSON.stringify` and `JSON.parse`

The built-in `JSON` object over the values of `JSValue`, without a replacer,
a reviver, an indentation or `toJSON` methods. It differs from the built-in in
what `JSValue` cannot hold:

* a number is an exact integer, so `-0` is read as `0`, and a number text with
  a fraction or an exponent is reported as an error although the built-in
  reads it;
* a text is a sequence of Unicode scalar values, so a `\u` escape of a
  surrogate code unit is reported as an error although the built-in reads it;
* the properties of an object are kept in the order of the text, where the
  built-in puts the names that are array indices first.

None of these occurs in the text of a Profile. -/

/-- The lower-case hexadecimal digit of `n < 16`. -/
def hexDigit (n : Nat) : Char :=
  if n < 10 then Char.ofNat (48 + n) else Char.ofNat (87 + n)

/-- The JSON text of one character inside a string literal (`QuoteJSONString`). -/
def quoteChar (c : Char) : List Char :=
  if c = '\x22' then ['\x5c', '\x22']
  else if c = '\x5c' then ['\x5c', '\x5c']
  else if c = '\x08' then ['\x5c', 'b']
  else if c = '\x0c' then ['\x5c', 'f']
  else if c = '\n' then ['\x5c', 'n']
  else if c = '\r' then ['\x5c', 'r']
  else if c = '\t' then ['\x5c', 't']
  else if c.toNat < 32 then
    ['\x5c', 'u', '0', '0', hexDigit (c.toNat / 16), hexDigit (c.toNat % 16)]
  else [c]

/-- The body of a string literal: every character quoted. -/
def quoteChars : List Char → List Char
  | [] => []
  | c :: cs => quoteChar c ++ quoteChars cs

/-- The string literal of a text. -/
def quoteJSONString (s : List Char) : List Char :=
  '\x22' :: (quoteChars s ++ ['\x22'])

/-- The decimal digits of a natural number. -/
def natDigits : Nat → Nat → List Char
  | 0, _ => []
  | fuel + 1, n =>
    if n < 10 then [Char.ofNat (48 + n)]
    else natDigits fuel (n / 10) ++ [Char.ofNat (48 + n % 10)]

/-- The text of an integer-valued number. -/
def numberToString (n : Int) : List Char :=
  match n with
  | Int.ofNat m => natDigits (m + 1) m
  | Int.negSucc m => '-' :: natDigits (m + 2) (m + 1)

/-- The parts of an array or object text, separated by commas. -/
def joinComma : List (List Char) → List Char
  | [] => []
  | [x] => x
  | x :: y :: rest => x ++ ',' :: joinComma (y :: rest)

mutual
/-- The text of a value (`SerializeJSONProperty`): `none` is `undefined`. -/
def serialize : JSValue → Except JSError (Option (List Char))
  | .undefined => .ok none
  | .null => .ok (some ['n', 'u', 'l', 'l'])
  | .bool true => .ok (some ['t', 'r', 'u', 'e'])
  | .bool false => .ok (some ['f', 'a', 'l', 's', 'e'])
  | .number n => .ok (some (numberToString n))
  | .bigint _ => .error (.typeError "Do not know how to serialize a BigInt")
  | .string s => .ok (some (quoteJSONString s.data))
  | .array items =>
    match serializeItems items with
    | .ok parts => .ok (some ('[' :: (joinComma parts ++ [']'])))
    | .error e => .error e
  | .object fields =>
    match serializeFields fields with
    | .ok parts => .ok (some ('\x7b' :: (joinComma parts ++ ['\x7d'])))
    | .error e => .error e
/-- The texts of the elements of an array: `undefined` is written `null`. -/
def serializeItems : List JSValue → Except JSError (List (List Char))
  | [] => .ok []
  | v :: rest =>
    match serialize v with
    | .error e => .error e
    | .ok r =>
      match serializeItems rest with
      | .error e => .error e
      | .ok parts => .ok (r.getD ['n', 'u', 'l', 'l'] :: parts)
/-- The texts of the properties of an object: an `undefined` value is left out. -/
def serializeFields : List (String × JSValue) → Except JSError (List (List Char))
  | [] => .ok []
  | (k, v) :: rest =>
    match serialize v with
    | .error e => .error e
    | .ok r =>
      match serializeFields rest with
      | .error e => .error e
      | .ok parts =>
        match r with
        | none => .ok parts
        | some text => .ok ((quoteJSONString k.data ++ ':' :: text) :: parts)
end

/-- The call `JSON.stringify(v)`. -/
def jsonStringify (v : JSValue) : Except JSError (Option String) :=
  match serialize v with
  | .ok r => .ok (r.map String.mk)
  | .error e => .error e

/-- JSON white space. -/
def isWhitespace (c : Char) : Bool :=
  c = ' ' || c = '\t' || c = '\n' || c = '\r'

/-- Drops leading white space. -/
def skipWhitespace : List Char → List Char
  | [] => []
  | c :: cs => if isWhitespace c then skipWhitespace cs else c :: cs

/-- The value of a hexadecimal digit. -/
def hexValue (c : Char) : Option Nat :=
  if 48 ≤ c.toNat ∧ c.toNat ≤ 57 then some (c.toNat - 48)
  else if 97 ≤ c.toNat ∧ c.toNat ≤ 102 then some (c.toNat - 87)
  else if 65 ≤ c.toNat ∧ c.toNat ≤ 70 then some (c.toNat - 55)
  else none

/-- The character of a `\u` escape with the four hexadecimal digits `a b c d`. -/
def unescapeUnicode (a b c d : Char) : Option Char :=
  match hexValue a, hexValue b, hexValue c, hexValue d with
  | some x, some y, some z, some w =>
    if ((x * 16 + y) * 16 + z) * 16 + w < 0xd800 ∨ 0xdfff < ((x * 16 + y) * 16 + z) * 16 + w then
      some (Char.ofNat (((x * 16 + y) * 16 + z) * 16 + w))
    else none
  | _, _, _, _ => none

/-- The character of a one-letter escape. -/
def simpleEscape (e : Char) : Option Char :=
  if e = '\x22' then some '\x22'
  else if e = '\x5c' then some '\x5c'
  else if e = '/' then some '/'
  else if e = 'b' then some '\x08'
  else if e = 'f' then some '\x0c'
  else if e = 'n' then some '\n'
  else if e = 'r' then some '\r'
  else if e = 't' then some '\t'
  else none

/-- The characters of a string literal after its opening quote, up to and
including the closing quote: the text, and the input after the literal. -/
def parseStringChars : List Char → Option (List Char × List Char)
  | [] => none
  | c :: rest =>
    if c = '\x22' then some ([], rest)
    else if c = '\x5c' then
      match rest with
      | [] => none
      | e :: rest1 =>
        if e = 'u' then
          match rest1 with
          | a :: b :: x :: d :: rest2 =>
            match unescapeUnicode a b x d, parseStringChars rest2 with
            | some u, some (s, out) => some (u :: s, out)
            | _, _ => none
          | _ => none
        else
          match simpleEscape e, parseStringChars rest1 with
          | some u, some (s, out) => some (u :: s, out)
          | _, _ => none
    else if c.toNat < 32 then none
    else
      match parseStringChars rest with
      | some (s, out) => some (c :: s, out)
      | none => none

/-- A decimal digit. -/
def isDigit (c : Char) : Bool :=
  decide (48 ≤ c.toNat) && decide (c.toNat ≤ 57)

/-- Reads digits, folding them into `acc`. -/
def takeDigits : List Char → Nat → Nat × List Char
  | [], acc => (acc, [])
  | c :: cs, acc =>
    if isDigit c then takeDigits cs (acc * 10 + (c.toNat - 48)) else (acc, c :: cs)

/-- Starts a fraction or an exponent. -/
def startsFraction (c : Char) : Bool :=
  c = '.' || c = 'e' || c = 'E'

/-- An integer literal without its sign: `0`, or a non-zero digit followed by
digits; a literal that goes on with a fraction or an exponent is refused. -/
def parseNatural : List Char → Option (Nat × List Char)
  | [] => none
  | c :: cs =>
    if c = '0' then
      match cs with
      | d :: _ => if isDigit d || startsFraction d then none else some (0, cs)
      | [] => some (0, cs)
    else if isDigit c then
      match takeDigits cs (c.toNat - 48) with
      | (n, d :: out) => if startsFraction d then none else some (n, d :: out)
      | (n, []) => some (n, [])
    else none

/-- Defines the property `k` of an object under construction: a repeated name
keeps its place and takes the later value. -/
def setField (fields : List (String × JSValue)) (k : String) (v : JSValue) :
    List (String × JSValue) :=
  match fields with
  | [] => [(k, v)]
  | (k1, v1) :: rest => if k1 = k then (k1, v) :: rest else (k1, v1) :: setField rest k v

/-- Reads the rest of a literal name (`null`, `true`, `false`). -/
def expectLiteral (lit : List Char) (v : JSValue) (cs : List Char) :
    Option (JSValue × List Char) :=
  if lit.isPrefixOf cs then some (v, cs.drop lit.length) else none

mutual
/-- Reads one JSON value, white space before it allowed: the value and the
input after it. The first argument bounds the number of nested calls. -/
def parseValue : Nat → List Char → Option (JSValue × List Char)
  | 0, _ => none
  | fuel + 1, cs =>
    match skipWhitespace cs with
    | [] => none
    | c :: rest =>
      if c = 'n' then expectLiteral ['u', 'l', 'l'] .null rest
      else if c = 't' then expectLiteral ['r', 'u', 'e'] (.bool true) rest
      else if c = 'f' then expectLiteral ['a', 'l', 's', 'e'] (.bool false) rest
      else if c = '\x22' then
        match parseStringChars rest with
        | some (s, out) => some (.string (String.mk s), out)
        | none => none
      else if c = '-' then
        match parseNatural rest with
        | some (n, out) => some (.number (-(n : Int)), out)
        | none => none
      else if c = '[' then
        match skipWhitespace rest with
        | d :: rest1 =>
          if d = ']' then some (.array [], rest1) else parseElements fuel (d :: rest1) []
        | [] => none
      else if c = '\x7b' then
        match skipWhitespace rest with
        | d :: rest1 =>
          if d = '\x7d' then some (.object [], rest1) else parseMembers fuel (d :: rest1) []
        | [] => none
      else
        match parseNatural (c :: rest) with
        | some (n, out) => some (.number (n : Int), out)
        | none => none
/-- Reads the elements of an array after `[`, up to and including `]`. -/
def parseElements : Nat → List Char → List JSValue → Option (JSValue × List Char)
  | 0, _, _ => none
  | fuel + 1, cs, acc =>
    match parseValue fuel cs with
    | none => none
    | some (v, out) =>
      match skipWhitespace out with
      | d :: rest =>
        if d = ',' then parseElements fuel rest (acc ++ [v])
        else if d = ']' then some (.array (acc ++ [v]), rest)
        else none
      | [] => none
/-- Reads the members of an object after its opening brace, up to and
including the closing brace. -/
def parseMembers : Nat → List Char → List (String × JSValue) → Option (JSValue × List Char)
  | 0, _, _ => none
  | fuel + 1, cs, acc =>
    match skipWhitespace cs with
    | q :: rest =>
      if q = '\x22' then
        match parseStringChars rest with
        | none => none
        | some (k, out) =>
          match skipWhitespace out with
          | colon :: rest1 =>
            if colon = ':' then
              match parseValue fuel rest1 with
              | none => none
              | some (v, out1) =>
                match skipWhitespace out1 with
                | d :: rest2 =>
                  if d = ',' then parseMembers fuel rest2 (setField acc (String.mk k) v)
                  else if d = '\x7d' then some (.object (setField acc (String.mk k) v), rest2)
                  else none
                | [] => none
            else none
          | [] => none
      else none
    | [] => none
end

/-- The call `JSON.parse(text)`: the whole text is one value, white space
around it allowed. -/
def jsonParse (text : String) : Except JSError JSValue :=
  match parseValue (2 * text.data.length + 2) text.data with
  | some (v, out) =>
    match skipWhitespace out with
    | [] => .ok v
    | _ :: _ => .error (.syntaxError "Unexpected non-whitespace character after JSON")
  | none => .error (.syntaxError "Unexpected token or end of JSON input")

/-- The reference serializer. -/
def json : StructuredSerializer where
  stringify := jsonStringify
  parse := jsonParse

/-! ## A reference transform

The compression library is not part of the repository sources. The reference
transform is a lossless text to URL-safe text transform that meets the
contract of section 6 of the specification: a product starts with the
character `Q` and writes every character of the text as four digits of the
alphabet in base 64. -/

/-- The digit of `i < 64` in the alphabet. -/
def digitChar (i : Nat) : Char :=
  keyStrUriSafe.data.getD i 'A'

/-- The value of a digit of the alphabet; `$`, at position 64, is no digit. -/
def digitValue (c : Char) : Option Nat :=
  if keyStrUriSafe.data.indexOf c < 64 then some (keyStrUriSafe.data.indexOf c) else none

/-- The four digits of a character. -/
def packChar (c : Char) : List Char :=
  [digitChar (c.toNat / 262144 % 64), digitChar (c.toNat / 4096 % 64),
    digitChar (c.toNat / 64 % 64), digitChar (c.toNat % 64)]

/-- The digits of a text. -/
def pack : List Char → List Char
  | [] => []
  | c :: cs => packChar c ++ pack cs

/-- The character of four digit values, when they are the digits of one. -/
def unpackChar (a b c d : Nat) : Option Char :=
  if Nat.isValidChar (((a * 64 + b) * 64 + c) * 64 + d) then
    some (Char.ofNat (((a * 64 + b) * 64 + c) * 64 + d))
  else none

/-- The text of a sequence of digits: absent unless the digits are those of a text. -/
def unpack : List Char → Option (List Char)
  | [] => some []
  | a :: b :: c :: d :: rest =>
    match digitValue a, digitValue b, digitValue c, digitValue d with
    | some x, some y, some z, some w =>
      match unpackChar x y z w, unpack rest with
      | some ch, some s => some (ch :: s)
      | _, _ => none
    | _, _, _, _ => none
  | _ => none

/-- Modelled from the spec: the compression transform of section 6, which is
not part of the repository sources. `compress` succeeds for any text and
returns the empty token for `undefined`; `decompress` returns absent for the
empty token and for every text that is not a product of `compress`. -/
def referenceTransform : CompactURLTransform where
  compressToEncodedURIComponent input :=
    match input with
    | none => .ok ""
    | some text => .ok (String.mk ('Q' :: pack text.data))
  decompressFromEncodedURIComponent token :=
    match token.data with
    | [] => .ok none
    | q :: digits =>
      if q = 'Q' then
        match unpack digits with
        | some s => .ok (some (String.mk s))
        | none => .ok none
      else .ok none

/-! ## The library lz-string

`onelink.js` imports `lz-string`, which is not part of the repository sources.
This section transcribes the two functions of the library that the codec
calls, `compressToEncodedURIComponent` and `decompressFromEncodedURIComponent`,
with `_compress` and `_decompress` behind them.

* A JavaScript text is a sequence of UTF-16 code units; `toCodeUnits` and
  `ofCodeUnits` convert from and to `String`.
* `_compress` shifts every bit into a six-bit buffer and pushes a character
  when the buffer is full. Here the bits are collected first (`compressBits`)
  and cut into characters afterwards (`packBits`), which gives the same token.
* `_decompress` reads the token through `data.val`, `data.position` and
  `data.index`. Here the reader holds the bits that are left and counts the
  bits read: `data.index` is one more than the number of whole characters read.
* A number is a `Nat`; the 32-bit shifts of the library agree with it as long
  as a code has fewer than 31 bits, which takes a token of some 2^28 characters
  to exceed. -/

/-- The UTF-16 code units of a text, as JavaScript holds it. -/
def toCodeUnits : List Char → List Nat
  | [] => []
  | c :: cs =>
    if c.toNat < 65536 then c.toNat :: toCodeUnits cs
    else (55296 + (c.toNat - 65536) / 1024) :: (56320 + (c.toNat - 65536) % 1024) ::
      toCodeUnits cs

/-- The text of a sequence of UTF-16 code units; a surrogate without its
partner, which `String` cannot hold, is read as U+FFFD. -/
def ofCodeUnits : List Nat → List Char
  | [] => []
  | [u] => if 55296 ≤ u ∧ u < 57344 then [Char.ofNat 65533] else [Char.ofNat u]
  | u :: v :: rest =>
    if 55296 ≤ u ∧ u < 56320 then
      if 56320 ≤ v ∧ v < 57344 then
        Char.ofNat (65536 + (u - 55296) * 1024 + (v - 56320)) :: ofCodeUnits rest
      else Char.ofNat 65533 :: ofCodeUnits (v :: rest)
    else if 56320 ≤ u ∧ u < 57344 then Char.ofNat 65533 :: ofCodeUnits (v :: rest)
    else Char.ofNat u :: ofCodeUnits (v :: rest)

/-- The lowest `n` bits of `value`, lowest first: the order in which
`_compress` writes a code. -/
def bitsOf : Nat → Nat → List Bool
  | 0, _ => []
  | n + 1, value => decide (value % 2 = 1) :: bitsOf n (value / 2)

/-- The variables of `_compress`: `context_dictionary`,
`context_dictionaryToCreate`, `context_w`, `context_enlargeIn`,
`context_dictSize`, `context_numBits`, and the bits written so far. -/
structure CompressContext where
  dictionary : List (List Nat × Nat)
  dictionaryToCreate : List (List Nat)
  w : List Nat
  enlargeIn : Nat
  dictSize : Nat
  numBits : Nat
  bits : List Bool

/-- The statements `context_enlargeIn--; if (context_enlargeIn == 0) {
context_enlargeIn = Math.pow(2, context_numBits); context_numBits++; }`. -/
def CompressContext.enlarge (ctx : CompressContext) : CompressContext :=
  if ctx.enlargeIn - 1 = 0 then
    { ctx with enlargeIn := 2 ^ ctx.numBits, numBits := ctx.numBits + 1 }
  else { ctx with enlargeIn := ctx.enlargeIn - 1 }

/-- Writes the code of `context_w`. A character that is written for the first
time goes out in full, after the code 0 (8 bits, below 256) or 1 (16 bits);
any other phrase goes out as its number in the dictionary. -/
def CompressContext.writeW (ctx : CompressContext) : CompressContext :=
  if ctx.dictionaryToCreate.contains ctx.w then
    let ctx1 : CompressContext :=
      if ctx.w.headD 0 < 256 then
        { ctx with bits := ctx.bits ++ bitsOf ctx.numBits 0 ++ bitsOf 8 (ctx.w.headD 0) }
      else
        { ctx with bits := ctx.bits ++ bitsOf ctx.numBits 1 ++ bitsOf 16 (ctx.w.headD 0) }
    let ctx2 := ctx1.enlarge
    { ctx2 with
      dictionaryToCreate := ctx2.dictionaryToCreate.filter (fun k => k != ctx.w) }.enlarge
  else
    { ctx with
      bits := ctx.bits ++ bitsOf ctx.numBits ((ctx.dictionary.lookup ctx.w).getD 0) }.enlarge

/-- The body of the loop of `_compress` for the code unit `c`. -/
def CompressContext.step (ctx : CompressContext) (c : Nat) : CompressContext :=
  let ctx1 : CompressContext :=
    if (ctx.dictionary.lookup [c]).isSome then ctx
    else { ctx with
      dictionary := ([c], ctx.dictSize) :: ctx.dictionary
      dictSize := ctx.dictSize + 1
      dictionaryToCreate := [c] :: ctx.dictionaryToCreate }
  if (ctx1.dictionary.lookup (ctx1.w ++ [c])).isSome then { ctx1 with w := ctx1.w ++ [c] }
  else
    let ctx2 := ctx1.writeW
    { ctx2 with
      dictionary := (ctx1.w ++ [c], ctx2.dictSize) :: ctx2.dictionary
      dictSize := ctx2.dictSize + 1
      w := [c] }

/-- The bits that `_compress` writes for a text: the codes of its phrases, then
the end marker, the code 2. -/
def compressBits (text : List Nat) : List Bool :=
  let ctx0 : CompressContext :=
    { dictionary := [], dictionaryToCreate := [], w := [], enlargeIn := 2, dictSize := 3,
      numBits := 2, bits := [] }
  let ctx1 := text.foldl CompressContext.step ctx0
  let ctx2 := if ctx1.w = [] then ctx1 else ctx1.writeW
  ctx2.bits ++ bitsOf ctx2.numBits 2

/-- The number of six bits, the first bit highest. -/
def sextet (b0 b1 b2 b3 b4 b5 : Bool) : Nat :=
  ((((b0.toNat * 2 + b1.toNat) * 2 + b2.toNat) * 2 + b3.toNat) * 2 + b4.toNat) * 2 + b5.toNat

/-- The characters of a sequence of bits, six bits each. The last character is
filled with zeros, one at least: the loop that flushes the buffer shifts once
before it tests whether the buffer is full. -/
def packBits : List Bool → List Char
  | b0 :: b1 :: b2 :: b3 :: b4 :: b5 :: rest =>
    digitChar (sextet b0 b1 b2 b3 b4 b5) :: packBits rest
  | [b0, b1, b2, b3, b4] => [digitChar (sextet b0 b1 b2 b3 b4 false)]
  | [b0, b1, b2, b3] => [digitChar (sextet b0 b1 b2 b3 false false)]
  | [b0, b1, b2] => [digitChar (sextet b0 b1 b2 false false false)]
  | [b0, b1] => [digitChar (sextet b0 b1 false false false false)]
  | [b0] => [digitChar (sextet b0 false false false false false)]
  | [] => [digitChar 0]

/-- The call `LZString.compressToEncodedURIComponent(text)` for a text. -/
def lzCompress (text : String) : String :=
  String.mk (packBits (compressBits (toCodeUnits text.data)))

/-- The six bits of a code unit of a token, highest first. A code unit that is
no character of the alphabet has the value `undefined`, whose bits are zeros;
so has `$`, whose value is 64. -/
def unitBits (u : Nat) : List Bool :=
  [decide ((digitValue (Char.ofNat u)).getD 0 / 32 % 2 = 1),
    decide ((digitValue (Char.ofNat u)).getD 0 / 16 % 2 = 1),
    decide ((digitValue (Char.ofNat u)).getD 0 / 8 % 2 = 1),
    decide ((digitValue (Char.ofNat u)).getD 0 / 4 % 2 = 1),
    decide ((digitValue (Char.ofNat u)).getD 0 / 2 % 2 = 1),
    decide ((digitValue (Char.ofNat u)).getD 0 % 2 = 1)]

/-- The reader of `_decompress`: the bits that are left and the number of bits
read. Past the end of the token every bit is zero. -/
structure BitReader where
  rest : List Bool
  consumed : Nat

/-- Reads `n` bits as a number, lowest bit first. -/
def BitReader.read : Nat → BitReader → Nat × BitReader
  | 0, r => (0, r)
  | n + 1, r =>
    match BitReader.read n { rest := r.rest.tail, consumed := r.consumed + 1 } with
    | (v, r1) => ((r.rest.headD false).toNat + 2 * v, r1)

/-- The variables of the loop of `_decompress`. `dictionary` holds the phrases
of the codes 3, 4, ... in turn, and `result` the code units pushed so far;
`none` is `undefined`. -/
structure DecompressContext where
  dictionary : List (Option (List Nat))
  dictSize : Nat
  enlargeIn : Nat
  numBits : Nat
  w : Option (List Nat)
  result : List Nat
  reader : BitReader

/-- The outcome of one turn of the loop of `_decompress`: it returns a text,
returns `null`, throws, or goes on. -/
inductive LoopResult where
  | text (s : List Nat)
  | null
  | throws
  | more (ctx : DecompressContext)

/-- The text that `undefined + s` starts with. -/
def undefinedText : List Nat :=
  toCodeUnits ['u', 'n', 'd', 'e', 'f', 'i', 'n', 'e', 'd']

/-- Reads the code of a turn and, for the codes 0 and 1, the new character
after it: the code to look up, the dictionary, its size, `enlargeIn` and the
reader. -/
def readCode (ctx : DecompressContext) (code : Nat) (r : BitReader) :
    Nat × List (Option (List Nat)) × Nat × Nat × BitReader :=
  if code = 0 then
    match BitReader.read 8 r with
    | (ch, r1) =>
      (ctx.dictSize, ctx.dictionary ++ [some [ch]], ctx.dictSize + 1, ctx.enlargeIn - 1, r1)
  else if code = 1 then
    match BitReader.read 16 r with
    | (ch, r1) =>
      (ctx.dictSize, ctx.dictionary ++ [some [ch]], ctx.dictSize + 1, ctx.enlargeIn - 1, r1)
  else (code, ctx.dictionary, ctx.dictSize, ctx.enlargeIn, r)

/-- The phrase of the code `c`: `dictionary[c]` when it is set, `w +
w.charAt(0)` when `c` is the next code to give out (which throws when `w` is
`undefined`), and otherwise none, for which `_decompress` returns `null`. -/
def lookupEntry (dictionary : List (Option (List Nat))) (dictSize c : Nat)
    (w : Option (List Nat)) : Option (Option (List Nat)) :=
  match (dictionary.get? (c - 3)).join with
  | some e => some (some e)
  | none =>
    if c = dictSize then
      match w with
      | some text => some (some (text ++ [text.headD 0]))
      | none => some none
    else none

/-- One turn of the loop `while (true)` of `_decompress`, for a token of
`length` code units. -/
def decompressStep (length : Nat) (ctx : DecompressContext) : LoopResult :=
  if 1 + ctx.reader.consumed / 6 > length then .text []
  else
    match BitReader.read ctx.numBits ctx.reader with
    | (code, r1) =>
      if code = 2 then .text ctx.result
      else
        match readCode ctx code r1 with
        | (c, dict1, size1, enl1, r2) =>
          match lookupEntry dict1 size1 c ctx.w with
          | none => .null
          | some none => .throws
          | some (some entry) =>
            .more {
              dictionary := dict1 ++ [some (ctx.w.getD undefinedText ++ entry.take 1)]
              dictSize := size1 + 1
              enlargeIn :=
                if (if enl1 = 0 then 2 ^ ctx.numBits else enl1) - 1 = 0 then
                  2 ^ (if enl1 = 0 then ctx.numBits + 1 else ctx.numBits)
                else (if enl1 = 0 then 2 ^ ctx.numBits else enl1) - 1
              numBits :=
                if (if enl1 = 0 then 2 ^ ctx.numBits else enl1) - 1 = 0 then
                  (if enl1 = 0 then ctx.numBits + 1 else ctx.numBits) + 1
                else (if enl1 = 0 then ctx.numBits + 1 else ctx.numBits)
              w := some entry
              result := ctx.result ++ entry
              reader := r2 }

/-- The loop `while (true)` of `_decompress`. Every turn reads three bits at
least and the loop returns once the token is read, so `2 * length + 2` turns
are enough; running out of turns is reported as a fault of its own. -/
def decompressLoop (length : Nat) :
    Nat → DecompressContext → Except JSError (Option (List Nat))
  | 0, _ => .error (.error "decompressLoop: out of turns")
  | fuel + 1, ctx =>
    match decompressStep length ctx with
    | .text s => .ok (some s)
    | .null => .ok none
    | .throws => .error (.typeError "Cannot read properties of undefined (reading 'charAt')")
    | .more ctx1 => decompressLoop length fuel ctx1

/-- The first character of `_decompress`, read after the two bits `next`: a
character of 8 bits, of 16 bits, or `undefined` when `next` is 3. -/
def readFirst (next : Nat) (r : BitReader) : Option (List Nat) × BitReader :=
  if next = 0 then
    match BitReader.read 8 r with
    | (ch, r1) => (some [ch], r1)
  else if next = 1 then
    match BitReader.read 16 r with
    | (ch, r1) => (some [ch], r1)
  else (none, r)

/-- The function `_decompress` on the code units of a token. -/
def decompressUnits (token : List Nat) : Except JSError (Option (List Nat)) :=
  match BitReader.read 2 { rest := token.flatMap unitBits, consumed := 0 } with
  | (next, r1) =>
    if next = 2 then .ok (some [])
    else
      match readFirst next r1 with
      | (c, r2) =>
        decompressLoop token.length (2 * token.length + 2)
          { dictionary := [c], dictSize := 4, enlargeIn := 4, numBits := 3, w := c,
            result := c.getD [], reader := r2 }

/-- The call `LZString.decompressFromEncodedURIComponent(token)`: `null` for
the empty token; otherwise every space becomes `+` and `_decompress` runs. -/
def lzDecompress (token : String) : Except JSError (Option String) :=
  if token = "" then .ok none
  else
    match decompressUnits
      (toCodeUnits (token.data.map (fun c => if c = ' ' then '+' else c))) with
    | .ok (some s) => .ok (some (String.mk (ofCodeUnits s)))
    | .ok none => .ok none
    | .error e => .error e

/-- The import `LZString` of `onelink.js`. `compressToEncodedURIComponent`
returns the empty text for `undefined`. -/
def lzString : CompactURLTransform where
  compressToEncodedURIComponent input :=
    match input with
    | none => .ok ""
    | some text => .ok (lzCompress text)
  decompressFromEncodedURIComponent := lzDecompress

/-- The Profile of the example of section 8: name `Alice`, an empty bio, no
avatar and one link. -/
def alice : Profile where
  name := some "Alice"
  bio := some ""
  avatarUrl := none
  links := [{ title := "GitHub", url := "https://github.com/alice" }]

/-- The Profile with every optional field absent and no link. -/
def emptyProfile : Profile where
  name := none
  bio := none
  avatarUrl := none
  links := []

/-- The JSON text of the object of a link. -/
def linkText (l : Link) : List Char :=
  '\x7b' :: (quoteJSONString "title".data ++ ':' :: (quoteJSONString l.title.data ++ ',' ::
    (quoteJSONString "url".data ++ ':' :: (quoteJSONString l.url.data ++ ['\x7d']))))

/-- The JSON text of an optional text property, with the comma after it. -/
def optionalText (key : String) : Option String → List Char
  | none => []
  | some v => quoteJSONString key.data ++ ':' :: (quoteJSONString v.data ++ [','])

/-- The JSON text of the object of a Profile. -/
def profileText (p : Profile) : List Char :=
  '\x7b' :: (optionalText "name" p.name ++ (optionalText "bio" p.bio ++
    (optionalText "avatarUrl" p.avatarUrl ++ (quoteJSONString "links".data ++ ':' :: '[' ::
      (joinComma (p.links.map linkText) ++ [']', '\x7d'])))))

/-! ## Theorems about the registry -/

theorem orNull_eq {α : Type} (x : Option α) : orNull x = x := by
  cases x <;> rfl

/-- C9: `getModuleByRoute r` is the first registry entry whose route is `r` when
there is one (so it is a registered module with that route, and no earlier
entry has it), and `null` exactly when no registered module has route `r`; a
returned module never has another route. -/
theorem getModuleByRoute_spec (r : String) :
    (∀ m, getModuleByRoute r = some m →
        m ∈ modules ∧ m.route = r ∧
        ∃ before after, modules = before ++ m :: after ∧ ∀ x ∈ before, x.route ≠ r) ∧
    ((∃ m ∈ modules, m.route = r) → ∃ m, getModuleByRoute r = some m) ∧
    (getModuleByRoute r = none ↔ ∀ m ∈ modules, m.route ≠ r) := by
  unfold getModuleByRoute
  rw [orNull_eq]
  refine ⟨?_, ?_, ?_⟩
  · intro m hm
    have hmem := List.mem_of_find?_eq_some hm
    have hroute : m.route = r := by
      have := List.find?_some hm
      simpa using this
    refine ⟨hmem, hroute, ?_⟩
    obtain ⟨hp, before, after, hsplit, hbefore⟩ := List.find?_eq_some.mp hm
    exact ⟨before, after, hsplit, fun x hx => by simpa using hbefore x hx⟩
  · rintro ⟨m, hm, hr⟩
    cases h : modules.find? (fun module => decide (module.route = r)) with
    | some x => exact ⟨x, rfl⟩
    | none =>
      have := List.find?_eq_none.mp h m hm
      simp [hr] at this
  · rw [List.find?_eq_none]
    simp

/-- C10: the three route queries agree, and `getAllRoutes` lists the routes of
the registered modules in registry order, one per module. -/
theorem route_queries_agree (r : String) :
    (isValidRoute r = true ↔ r ∈ getAllRoutes) ∧
    (r ∈ getAllRoutes ↔ getModuleByRoute r ≠ none) ∧
    getAllRoutes.length = modules.length ∧
    (∀ i (h : i < modules.length),
        getAllRoutes[i]? = some (modules.get ⟨i, h⟩).route) ∧
    getAllRoutes = ["image-analyzer", "json-formatter", "qr-generator", "base64-tool"] := by
  have hnone : getModuleByRoute r = none ↔ ∀ m ∈ modules, m.route ≠ r := by
    unfold getModuleByRoute
    rw [orNull_eq, List.find?_eq_none]
    simp
  refine ⟨?_, ?_, ?_, ?_, rfl⟩
  · unfold isValidRoute getAllRoutes
    simp [List.any_eq_true, List.mem_map]
  · rw [Ne, hnone]
    unfold getAllRoutes
    simp [List.mem_map]
  · simp [getAllRoutes]
  · intro i h
    simp [getAllRoutes, List.getElem?_map, List.getElem?_eq_getElem h]

/-! ## Lemmas about the codec -/

theorem tryCatch_ok {ε α : Type} (v : α) (handler : ε → Except ε α) :
    tryCatch (.ok v) handler = .ok v := rfl

theorem tryCatch_error {ε α : Type} (e : ε) (handler : ε → Except ε α) :
    tryCatch (.error e) handler = handler e := rfl

/-- The token of a value that serializes: what `compress` returns, or the
empty token when `compress` throws. -/
theorem encodeProfile_of_stringify (L : CompactURLTransform) (S : StructuredSerializer)
    (data : JSValue) (jsonStr : Option String) (h : S.stringify data = .ok jsonStr) :
    encodeProfile L S data =
      tryCatch (L.compressToEncodedURIComponent jsonStr) (fun _ => .ok "") := by
  simp [encodeProfile, h]

/-- A fault of the serializer is caught. -/
theorem encodeProfile_of_stringify_error (L : CompactURLTransform) (S : StructuredSerializer)
    (data : JSValue) (e : JSError) (h : S.stringify data = .error e) :
    encodeProfile L S data = .ok "" := by
  simp [encodeProfile, h, tryCatch]

/-- The result of `encodeProfile` is a token, never a fault. -/
theorem encodeProfile_returns (L : CompactURLTransform) (S : StructuredSerializer)
    (data : JSValue) :
    encodeProfile L S data = .ok "" ∨
      ∃ jsonStr token, S.stringify data = .ok jsonStr ∧
        L.compressToEncodedURIComponent jsonStr = .ok token ∧
        encodeProfile L S data = .ok token := by
  unfold encodeProfile
  cases hs : S.stringify data with
  | error e => left; rfl
  | ok jsonStr =>
    cases hc : L.compressToEncodedURIComponent jsonStr with
    | error e => left; simp [tryCatch, hc]
    | ok token => right; exact ⟨jsonStr, token, rfl, hc, by simp [tryCatch, hc]⟩

/-- A fault of the transform is caught. -/
theorem decodeProfile_of_decompress_error (L : CompactURLTransform)
    (S : StructuredSerializer) (t : String) (e : JSError)
    (h : L.decompressFromEncodedURIComponent t = .error e) :
    decodeProfile L S t = .ok .null := by
  simp [decodeProfile, h, tryCatch]

/-- The guard `if (!jsonStr) return null`, for `null`. -/
theorem decodeProfile_of_decompress_none (L : CompactURLTransform)
    (S : StructuredSerializer) (t : String)
    (h : L.decompressFromEncodedURIComponent t = .ok none) :
    decodeProfile L S t = .ok .null := by
  simp [decodeProfile, h, tryCatch]

/-- The guard `if (!jsonStr) return null`, for the empty text. -/
theorem decodeProfile_of_decompress_empty (L : CompactURLTransform)
    (S : StructuredSerializer) (t : String)
    (h : L.decompressFromEncodedURIComponent t = .ok (some "")) :
    decodeProfile L S t = .ok .null := by
  simp [decodeProfile, h, tryCatch]

/-- After the guard the result is what the parser returns, a fault caught. -/
theorem decodeProfile_of_decompress_text (L : CompactURLTransform)
    (S : StructuredSerializer) (t text : String)
    (h : L.decompressFromEncodedURIComponent t = .ok (some text)) (hne : text ≠ "") :
    decodeProfile L S t = tryCatch (S.parse text) (fun _ => .ok .null) := by
  simp [decodeProfile, h, hne]

/-! ## Lemmas about the Profile -/

theorem linksOfJS?_map_toJS (links : List Link) :
    linksOfJS? (links.map Link.toJS) = some links := by
  induction links with
  | nil => rfl
  | cons l ls ih =>
    have hl : Link.ofJS? l.toJS = some l := by
      cases l
      simp [Link.ofJS?, Link.toJS, JSValue.getProp, List.lookup]
    simp [linksOfJS?, hl, ih]

/-- Reading the object of a Profile gives the Profile back: an absent field is
read as absent and an empty text as an empty text. -/
theorem Profile.ofJS?_toJS (p : Profile) : Profile.ofJS? p.toJS = some p := by
  obtain ⟨name, bio, avatarUrl, links⟩ := p
  cases name <;> cases bio <;> cases avatarUrl <;>
    simp [Profile.ofJS?, Profile.toJS, optionalField, JSValue.getProp, List.lookup,
      asOptionalText, linksOfJS?_map_toJS]

theorem Profile.toJS_injective (p q : Profile) (h : p.toJS = q.toJS) : p = q := by
  have hp := Profile.ofJS?_toJS p
  rw [h, Profile.ofJS?_toJS q] at hp
  exact (Option.some.inj hp).symm

/-! ## The reference transform meets the contract -/

theorem digitValue_digitChar (i : Nat) (h : i < 64) : digitValue (digitChar i) = some i := by
  interval_cases i <;> rfl

theorem digitChar_mem (i : Nat) : digitChar i ∈ keyStrUriSafe.data := by
  unfold digitChar
  by_cases h : i < keyStrUriSafe.data.length
  · rw [List.getD_eq_getElem _ _ h]
    exact List.getElem_mem h
  · rw [List.getD_eq_default _ _ (Nat.le_of_not_lt h)]
    decide

theorem digitChar_of_digitValue (c : Char) (i : Nat) (h : digitValue c = some i) :
    digitChar i = c ∧ i < 64 := by
  unfold digitValue at h
  split at h
  · rename_i hlt
    have hi : keyStrUriSafe.data.indexOf c = i := Option.some.inj h
    have hlen : keyStrUriSafe.data.indexOf c < keyStrUriSafe.data.length :=
      Nat.lt_trans hlt (by decide)
    refine ⟨?_, hi ▸ hlt⟩
    unfold digitChar
    rw [← hi, List.getD_eq_getElem _ _ hlen]
    exact List.indexOf_get hlen
  · cases h

theorem unpackChar_packed (c : Char) :
    unpackChar (c.toNat / 262144 % 64) (c.toNat / 4096 % 64) (c.toNat / 64 % 64)
      (c.toNat % 64) = some c := by
  have hv : Nat.isValidChar c.toNat := c.valid
  have hlt : c.toNat < 1114112 := by
    rcases hv with h | ⟨_, h⟩ <;> omega
  have hn : ((c.toNat / 262144 % 64 * 64 + c.toNat / 4096 % 64) * 64 + c.toNat / 64 % 64) * 64
      + c.toNat % 64 = c.toNat := by omega
  unfold unpackChar
  rw [hn, if_pos hv, Char.ofNat_toNat]

theorem unpack_pack (s : List Char) : unpack (pack s) = some s := by
  induction s with
  | nil => rfl
  | cons c cs ih =>
    simp only [pack, packChar, List.cons_append, List.nil_append, unpack]
    rw [digitValue_digitChar _ (Nat.mod_lt _ (by decide)),
      digitValue_digitChar _ (Nat.mod_lt _ (by decide)),
      digitValue_digitChar _ (Nat.mod_lt _ (by decide)),
      digitValue_digitChar _ (Nat.mod_lt _ (by decide))]
    simp only [unpackChar_packed, List.append_eq, List.nil_append, ih]

theorem toNat_ofNat_of_valid (n : Nat) (h : Nat.isValidChar n) : (Char.ofNat n).toNat = n := by
  unfold Char.ofNat
  rw [dif_pos h]
  rfl

theorem packChar_of_unpackChar (a b c d : Char) (x y z w : Nat) (ch : Char)
    (ha : digitValue a = some x) (hb : digitValue b = some y) (hc : digitValue c = some z)
    (hd : digitValue d = some w) (hu : unpackChar x y z w = some ch) :
    packChar ch = [a, b, c, d] := by
  obtain ⟨hax, hx⟩ := digitChar_of_digitValue a x ha
  obtain ⟨hby, hy⟩ := digitChar_of_digitValue b y hb
  obtain ⟨hcz, hz⟩ := digitChar_of_digitValue c z hc
  obtain ⟨hdw, hw⟩ := digitChar_of_digitValue d w hd
  unfold unpackChar at hu
  split at hu
  · rename_i hv
    have hch : ch.toNat = ((x * 64 + y) * 64 + z) * 64 + w := by
      rw [← Option.some.inj hu]
      exact toNat_ofNat_of_valid _ hv
    have h1 : ch.toNat / 262144 % 64 = x := by
      have hlt : ((x * 64 + y) * 64 + z) * 64 + w < 1114112 := by
        rcases hv with h | ⟨_, h⟩ <;> omega
      omega
    have h2 : ch.toNat / 4096 % 64 = y := by omega
    have h3 : ch.toNat / 64 % 64 = z := by omega
    have h4 : ch.toNat % 64 = w := by omega
    simp only [packChar, h1, h2, h3, h4, hax, hby, hcz, hdw]
  · cases hu

theorem pack_of_unpack : ∀ (digits s : List Char), unpack digits = some s → pack s = digits
  | [], s, h => by
    simp only [unpack, Option.some.injEq] at h
    subst h
    rfl
  | [_], s, h => by simp [unpack] at h
  | [_, _], s, h => by simp [unpack] at h
  | [_, _, _], s, h => by simp [unpack] at h
  | a :: b :: c :: d :: rest, s, h => by
    cases ha : digitValue a with
    | none => simp [unpack, ha] at h
    | some x =>
      cases hb : digitValue b with
      | none => simp [unpack, ha, hb] at h
      | some y =>
        cases hc : digitValue c with
        | none => simp [unpack, ha, hb, hc] at h
        | some z =>
          cases hd : digitValue d with
          | none => simp [unpack, ha, hb, hc, hd] at h
          | some w =>
            cases hu : unpackChar x y z w with
            | none => simp [unpack, ha, hb, hc, hd, hu] at h
            | some ch =>
              cases hrest : unpack rest with
              | none => simp [unpack, ha, hb, hc, hd, hu, hrest] at h
              | some s0 =>
                simp only [unpack, ha, hb, hc, hd, hu, hrest, Option.some.injEq] at h
                subst h
                simp only [pack, packChar_of_unpackChar a b c d x y z w ch ha hb hc hd hu,
                  pack_of_unpack rest s0 hrest, List.cons_append, List.nil_append]

theorem pack_mem (s : List Char) : ∀ c ∈ pack s, c ∈ keyStrUriSafe.data := by
  induction s with
  | nil => intro c hc; cases hc
  | cons x xs ih =>
    intro c hc
    simp only [pack, packChar, List.cons_append, List.nil_append, List.mem_cons] at hc
    rcases hc with h | h | h | h | h
    · exact h ▸ digitChar_mem _
    · exact h ▸ digitChar_mem _
    · exact h ▸ digitChar_mem _
    · exact h ▸ digitChar_mem _
    · exact ih c h

theorem referenceTransform_compressSucceeds : referenceTransform.CompressSucceeds :=
  fun text => ⟨String.mk ('Q' :: pack text.data), rfl⟩

theorem referenceTransform_lossless : referenceTransform.Lossless := by
  intro text token h
  have ht : token = String.mk ('Q' :: pack text.data) := by
    simp only [referenceTransform, Except.ok.injEq] at h
    exact h.symm
  subst ht
  simp [referenceTransform, unpack_pack]

theorem referenceTransform_strict : referenceTransform.Strict := by
  intro token h
  obtain ⟨data⟩ := token
  cases data with
  | nil => rfl
  | cons q digits =>
    by_cases hq : q = 'Q'
    · cases hu : unpack digits with
      | none => simp [referenceTransform, hq, hu]
      | some s =>
        exfalso
        apply h (String.mk s)
        simp [referenceTransform, hq, pack_of_unpack digits s hu]
    · simp [referenceTransform, hq]

theorem referenceTransform_emptyIsAbsent : referenceTransform.EmptyIsAbsent := rfl

theorem referenceTransform_urlSafe : referenceTransform.UrlSafe := by
  intro input token h c hc
  cases input with
  | none =>
    simp only [referenceTransform, Except.ok.injEq] at h
    subst h
    cases hc
  | some text =>
    simp only [referenceTransform, Except.ok.injEq] at h
    subst h
    simp only [List.mem_cons] at hc
    rcases hc with h | h
    · subst h; decide
    · exact pack_mem _ c h

theorem alphabet_needsNoPercentEncoding (c : Char) (h : c ∈ keyStrUriSafe.data) :
    needsNoPercentEncoding c = true := by
  have hall : keyStrUriSafe.data.all needsNoPercentEncoding = true := by decide
  exact List.all_eq_true.mp hall c h

theorem bang_not_in_alphabet : '!' ∉ keyStrUriSafe.data := by decide

/-! ## The reference serializer reads back what it writes -/

theorem unescapeUnicode_control (c : Char) (h : c.toNat < 32) :
    unescapeUnicode '0' '0' (hexDigit (c.toNat / 16)) (hexDigit (c.toNat % 16)) = some c := by
  have hc : c = Char.ofNat c.toNat := (Char.ofNat_toNat c).symm
  generalize c.toNat = n at h hc
  subst hc
  interval_cases n <;> rfl

theorem parseStringChars_quoteChar (c : Char) (tail s out : List Char)
    (h : parseStringChars tail = some (s, out)) :
    parseStringChars (quoteChar c ++ tail) = some (c :: s, out) := by
  unfold quoteChar
  split_ifs with h1 h2 h3 h4 h5 h6 h7 h8
  · subst h1; rw [parseStringChars.eq_def]; simp [simpleEscape, h]
  · subst h2; rw [parseStringChars.eq_def]; simp [simpleEscape, h]
  · subst h3; rw [parseStringChars.eq_def]; simp [simpleEscape, h]
  · subst h4; rw [parseStringChars.eq_def]; simp [simpleEscape, h]
  · subst h5; rw [parseStringChars.eq_def]; simp [simpleEscape, h]
  · subst h6; rw [parseStringChars.eq_def]; simp [simpleEscape, h]
  · subst h7; rw [parseStringChars.eq_def]; simp [simpleEscape, h]
  · rw [parseStringChars.eq_def]; simp [unescapeUnicode_control c h8, h]
  · rw [parseStringChars.eq_def]; simp [h1, h2, h8, h]

theorem parseStringChars_quoteChars (s out : List Char) :
    parseStringChars (quoteChars s ++ '\x22' :: out) = some (s, out) := by
  induction s with
  | nil => rw [parseStringChars.eq_def]; simp [quoteChars]
  | cons c cs ih =>
    simp only [quoteChars, List.append_assoc]
    exact parseStringChars_quoteChar c _ cs out ih


theorem quoteJSONString_append (s out : List Char) :
    quoteJSONString s ++ out = '\x22' :: (quoteChars s ++ '\x22' :: out) := by
  simp [quoteJSONString]

theorem parseValue_string (fuel : Nat) (s out : List Char) (h : 1 ≤ fuel) :
    parseValue fuel (quoteJSONString s ++ out) = some (.string (String.mk s), out) := by
  obtain ⟨m, rfl⟩ : ∃ m, fuel = m + 1 := ⟨fuel - 1, by omega⟩
  rw [quoteJSONString_append, parseValue]
  simp [skipWhitespace, isWhitespace, parseStringChars_quoteChars]

theorem parseValue_object_open (fuel : Nat) (k rest : List Char) (h : 1 ≤ fuel) :
    parseValue fuel ('\x7b' :: (quoteJSONString k ++ rest)) =
      parseMembers (fuel - 1) (quoteJSONString k ++ rest) [] := by
  obtain ⟨m, rfl⟩ : ∃ m, fuel = m + 1 := ⟨fuel - 1, by omega⟩
  rw [quoteJSONString_append, parseValue]
  simp [skipWhitespace, isWhitespace]

theorem parseValue_array_open (fuel : Nat) (rest : List Char) (h : 1 ≤ fuel) :
    parseValue fuel ('[' :: '\x7b' :: rest) = parseElements (fuel - 1) ('\x7b' :: rest) [] := by
  obtain ⟨m, rfl⟩ : ∃ m, fuel = m + 1 := ⟨fuel - 1, by omega⟩
  rw [parseValue]
  simp [skipWhitespace, isWhitespace]

theorem parseValue_array_empty (fuel : Nat) (rest : List Char) (h : 1 ≤ fuel) :
    parseValue fuel ('[' :: ']' :: rest) = some (.array [], rest) := by
  obtain ⟨m, rfl⟩ : ∃ m, fuel = m + 1 := ⟨fuel - 1, by omega⟩
  rw [parseValue]
  simp [skipWhitespace, isWhitespace]

theorem parseMembers_member_comma (fuel : Nat) (k vtext more : List Char) (v : JSValue)
    (acc : List (String × JSValue)) (h : 1 ≤ fuel)
    (hv : parseValue (fuel - 1) vtext = some (v, ',' :: more)) :
    parseMembers fuel (quoteJSONString k ++ ':' :: vtext) acc =
      parseMembers (fuel - 1) more (setField acc (String.mk k) v) := by
  obtain ⟨m, rfl⟩ : ∃ m, fuel = m + 1 := ⟨fuel - 1, by omega⟩
  rw [quoteJSONString_append, parseMembers]
  simp only [Nat.add_sub_cancel] at hv
  simp [skipWhitespace, isWhitespace, parseStringChars_quoteChars, hv]

theorem parseMembers_member_close (fuel : Nat) (k vtext out : List Char) (v : JSValue)
    (acc : List (String × JSValue)) (h : 1 ≤ fuel)
    (hv : parseValue (fuel - 1) vtext = some (v, '\x7d' :: out)) :
    parseMembers fuel (quoteJSONString k ++ ':' :: vtext) acc =
      some (.object (setField acc (String.mk k) v), out) := by
  obtain ⟨m, rfl⟩ : ∃ m, fuel = m + 1 := ⟨fuel - 1, by omega⟩
  rw [quoteJSONString_append, parseMembers]
  simp only [Nat.add_sub_cancel] at hv
  simp [skipWhitespace, isWhitespace, parseStringChars_quoteChars, hv]

theorem serialize_link (l : Link) : serialize l.toJS = .ok (some (linkText l)) := by
  simp [Link.toJS, serialize, serializeFields, joinComma, linkText]

theorem parseValue_link (fuel : Nat) (l : Link) (out : List Char) (h : 4 ≤ fuel) :
    parseValue fuel (linkText l ++ out) = some (l.toJS, out) := by
  simp only [linkText, List.cons_append, List.append_assoc, List.nil_append]
  rw [parseValue_object_open _ _ _ (by omega),
    parseMembers_member_comma _ _ _ _ _ _ (by omega) (parseValue_string _ _ _ (by omega)),
    parseMembers_member_close _ _ _ _ _ _ (by omega) (parseValue_string _ _ _ (by omega))]
  simp [setField, Link.toJS]

theorem serializeItems_links (links : List Link) :
    serializeItems (links.map Link.toJS) = .ok (links.map linkText) := by
  induction links with
  | nil => simp [serializeItems]
  | cons l ls ih => simp [serializeItems, serialize_link, ih]

theorem parseElements_links (l : Link) (ls : List Link) :
    ∀ (fuel : Nat) (acc : List JSValue) (out : List Char), ls.length + 5 ≤ fuel →
      parseElements fuel (joinComma ((l :: ls).map linkText) ++ ']' :: out) acc =
        some (.array (acc ++ (l :: ls).map Link.toJS), out) := by
  induction ls generalizing l with
  | nil =>
    intro fuel acc out h
    obtain ⟨m, rfl⟩ : ∃ m, fuel = m + 1 := ⟨fuel - 1, by omega⟩
    rw [parseElements]
    simp only [List.map, joinComma]
    rw [parseValue_link _ _ _ (by simp at h; omega)]
    simp [skipWhitespace, isWhitespace]
  | cons l1 ls1 ih =>
    intro fuel acc out h
    obtain ⟨m, rfl⟩ : ∃ m, fuel = m + 1 := ⟨fuel - 1, by omega⟩
    rw [parseElements]
    simp only [List.map, joinComma, List.append_assoc, List.cons_append]
    rw [parseValue_link _ _ _ (by simp at h; omega)]
    have := ih l1 m (acc ++ [l.toJS]) out (by simp at h; omega)
    simp only [List.map] at this
    simp [skipWhitespace, isWhitespace, this]

theorem parseValue_links (fuel : Nat) (links : List Link) (out : List Char)
    (h : links.length + 5 ≤ fuel) :
    parseValue fuel ('[' :: (joinComma (links.map linkText) ++ ']' :: out)) =
      some (.array (links.map Link.toJS), out) := by
  cases links with
  | nil => simpa [joinComma] using parseValue_array_empty fuel out (by omega)
  | cons l ls =>
    have hopen : ∃ rest, joinComma ((l :: ls).map linkText) ++ ']' :: out = '\x7b' :: rest := by
      cases ls <;> simp [joinComma, linkText]
    obtain ⟨rest, hrest⟩ := hopen
    rw [hrest, parseValue_array_open _ _ (by omega), ← hrest,
      parseElements_links l ls _ _ _ (by simp at h; omega)]
    simp

theorem parseMembers_text_comma (fuel : Nat) (k v more : List Char)
    (acc : List (String × JSValue)) (h : 2 ≤ fuel) :
    parseMembers fuel (quoteJSONString k ++ ':' :: (quoteJSONString v ++ ',' :: more)) acc =
      parseMembers (fuel - 1) more (setField acc (String.mk k) (.string (String.mk v))) :=
  parseMembers_member_comma fuel k _ more _ acc (by omega)
    (parseValue_string _ _ _ (by omega))

theorem parseMembers_links_close (fuel : Nat) (links : List Link) (out : List Char)
    (acc : List (String × JSValue)) (h : links.length + 6 ≤ fuel) :
    parseMembers fuel (quoteJSONString "links".data ++ ':' :: '[' ::
        (joinComma (links.map linkText) ++ ']' :: '\x7d' :: out)) acc =
      some (.object (setField acc "links" (.array (links.map Link.toJS))), out) :=
  parseMembers_member_close fuel _ _ out _ acc (by omega)
    (parseValue_links _ links _ (by omega))

theorem serialize_profile (p : Profile) : serialize p.toJS = .ok (some (profileText p)) := by
  obtain ⟨name, bio, avatarUrl, links⟩ := p
  cases name <;> cases bio <;> cases avatarUrl <;>
    simp [Profile.toJS, optionalField, serialize, serializeFields, serializeItems_links,
      joinComma, profileText, optionalText]

theorem parseValue_profile (fuel : Nat) (p : Profile) (out : List Char)
    (h : p.links.length + 10 ≤ fuel) :
    parseValue fuel (profileText p ++ out) = some (p.toJS, out) := by
  obtain ⟨name, bio, avatarUrl, links⟩ := p
  simp only at h
  cases name <;> cases bio <;> cases avatarUrl <;>
    simp only [profileText, optionalText, List.cons_append, List.append_assoc,
      List.nil_append] <;>
    rw [parseValue_object_open _ _ _ (by omega)] <;>
    (try rw [parseMembers_text_comma _ _ _ _ _ (by omega)]) <;>
    (try rw [parseMembers_text_comma _ _ _ _ _ (by omega)]) <;>
    (try rw [parseMembers_text_comma _ _ _ _ _ (by omega)]) <;>
    rw [parseMembers_links_close _ _ _ _ (by omega)] <;>
    simp [setField, Profile.toJS, optionalField]

theorem length_le_joinComma_links (links : List Link) :
    links.length ≤ (joinComma (links.map linkText)).length := by
  induction links with
  | nil => simp
  | cons l ls ih =>
    cases ls with
    | nil => simp [joinComma, linkText]
    | cons l1 ls1 =>
      simp only [List.map, joinComma, List.length_append, List.length_cons] at ih ⊢
      omega

theorem length_profileText (p : Profile) : p.links.length + 4 ≤ (profileText p).length := by
  have := length_le_joinComma_links p.links
  simp only [profileText, List.length_cons, List.length_append]
  omega

/-- The reference serializer writes every Profile as a non-empty text and reads
that text back as the same object. -/
theorem json_faithful_profile (p : Profile) : json.Faithful p.toJS := by
  refine ⟨String.mk (profileText p), ?_, ?_, ?_⟩
  · intro h
    have := congrArg String.data h
    simp [profileText] at this
  · simp [json, jsonStringify, serialize_profile]
  · have hlen := length_profileText p
    have hp := parseValue_profile (2 * (profileText p).length + 2) p [] (by omega)
    rw [List.append_nil] at hp
    simp [json, jsonParse, hp, skipWhitespace]

/-! ## The codec: round trip -/

/-- The round trip through a transform that always compresses and is lossless
and a serializer that writes the object of `p` and reads it back. -/
theorem roundTrip_of_faithful (L : CompactURLTransform) (S : StructuredSerializer)
    (p : Profile) (hc : L.CompressSucceeds) (hl : L.Lossless) (hS : S.Faithful p.toJS) :
    ∃ token v, encodeProfile L S p.toJS = .ok token ∧ decodeProfile L S token = .ok v ∧
      v = p.toJS ∧ Profile.ofJS? v = some p := by
  obtain ⟨text, hne, hw, hr⟩ := hS
  obtain ⟨token, ht⟩ := hc text
  refine ⟨token, p.toJS, ?_, ?_, rfl, Profile.ofJS?_toJS p⟩
  · rw [encodeProfile_of_stringify L S _ _ hw, ht]
    rfl
  · rw [decodeProfile_of_decompress_text L S token text (hl text token ht) hne, hr]
    rfl

/-- C1: with a transform that always compresses and is lossless, for every
Profile `p`, `encodeProfile` returns a token and `decodeProfile` of that token
returns the object of `p`; reading that object gives `p` itself, each field
absent or present as in `p` (an absent field is not an empty text) and the
links in the same order. This holds with the reference `JSON`, and with every
serializer that writes the object of `p` and reads it back. -/
theorem decodeProfile_encodeProfile (L : CompactURLTransform) (p : Profile)
    (hc : L.CompressSucceeds) (hl : L.Lossless) :
    (∃ token v, encodeProfile L json p.toJS = .ok token ∧
      decodeProfile L json token = .ok v ∧ v = p.toJS ∧ Profile.ofJS? v = some p) ∧
    ∀ S : StructuredSerializer, S.Faithful p.toJS →
      ∃ token v, encodeProfile L S p.toJS = .ok token ∧
        decodeProfile L S token = .ok v ∧ v = p.toJS ∧ Profile.ofJS? v = some p :=
  ⟨roundTrip_of_faithful L json p hc hl (json_faithful_profile p),
    fun S hS => roundTrip_of_faithful L S p hc hl hS⟩

/-- The example of section 8: the Profile `alice` goes through the reference
serializer and the reference transform and comes back. -/
theorem decodeProfile_encodeProfile_alice :
    referenceTransform.CompressSucceeds ∧ referenceTransform.Lossless ∧
    (∃ token v, encodeProfile referenceTransform json alice.toJS = .ok token ∧
      decodeProfile referenceTransform json token = .ok v ∧
      v = alice.toJS ∧ Profile.ofJS? v = some alice) ∧
    ∀ S : StructuredSerializer, S.Faithful alice.toJS →
      ∃ token v, encodeProfile referenceTransform S alice.toJS = .ok token ∧
        decodeProfile referenceTransform S token = .ok v ∧
        v = alice.toJS ∧ Profile.ofJS? v = some alice :=
  ⟨referenceTransform_compressSucceeds, referenceTransform_lossless,
    decodeProfile_encodeProfile referenceTransform alice
      referenceTransform_compressSucceeds referenceTransform_lossless⟩

/-! ## The codec: decoding never raises -/

/-- C2, as stated, fails: the token of the text `[1,2]` decodes to the array
`[1, 2]`, which is neither a Profile nor `null`. -/
theorem decodeProfile_returns_array :
    referenceTransform.compressToEncodedURIComponent (some "[1,2]")
      = .ok "QAABbAAAxAAAsAAAyAABd" ∧
    decodeProfile referenceTransform json "QAABbAAAxAAAsAAAyAABd"
      = .ok (.array [.number 1, .number 2]) ∧
    ¬ (JSValue.array [.number 1, .number 2]).IsProfile ∧
    JSValue.array [.number 1, .number 2] ≠ .null :=
  ⟨rfl, rfl, fun ⟨_, h⟩ => by simp [Profile.ofJS?] at h, by simp⟩

/-- C2, amended: for every text `t`, `decodeProfile t` returns a value and no
fault, whatever the transform and the parser do (return or throw): the value
is `null`, or it is the value that the parser returned for the non-empty text
that the transform returned. -/
theorem decodeProfile_total (L : CompactURLTransform) (S : StructuredSerializer)
    (t : String) :
    decodeProfile L S t = .ok .null ∨
      ∃ text v, L.decompressFromEncodedURIComponent t = .ok (some text) ∧ text ≠ "" ∧
        S.parse text = .ok v ∧ decodeProfile L S t = .ok v := by
  cases hd : L.decompressFromEncodedURIComponent t with
  | error e => exact Or.inl (decodeProfile_of_decompress_error L S t e hd)
  | ok r =>
    cases r with
    | none => exact Or.inl (decodeProfile_of_decompress_none L S t hd)
    | some text =>
      by_cases hne : text = ""
      · subst hne
        exact Or.inl (decodeProfile_of_decompress_empty L S t hd)
      · rw [decodeProfile_of_decompress_text L S t text hd hne]
        cases hp : S.parse text with
        | error e => exact Or.inl rfl
        | ok v => exact Or.inr ⟨text, v, rfl, hne, hp, rfl⟩

/-! ## The codec: no validation of the shape -/

/-- C3, as stated, fails: the token of the text `{"links":5}` decodes to the
object `{ links: 5 }`, which is not `null` and is not a well-formed Profile. -/
theorem decodeProfile_returns_malformed :
    referenceTransform.compressToEncodedURIComponent (some "\x7b\x22links\x22:5\x7d")
      = .ok "QAAB7AAAiAABsAABpAABuAABrAABzAAAiAAA6AAA1AAB9" ∧
    decodeProfile referenceTransform json "QAAB7AAAiAABsAABpAABuAABrAABzAAAiAAA6AAA1AAB9"
      = .ok (.object [("links", .number 5)]) ∧
    ¬ (JSValue.object [("links", .number 5)]).IsProfile ∧
    JSValue.object [("links", .number 5)] ≠ .null :=
  ⟨rfl, rfl, fun ⟨_, h⟩ => by
    simp [Profile.ofJS?, JSValue.getProp, List.lookup, asOptionalText] at h, by simp⟩

/-- C3, amended: when the text of a token is not empty and parses as an object
or an array, `decodeProfile` returns that value as it is, a well-formed
Profile or not, and so does not return `null`. -/
theorem decodeProfile_returns_parsed_object (L : CompactURLTransform)
    (S : StructuredSerializer) (t text : String) (v : JSValue)
    (hd : L.decompressFromEncodedURIComponent t = .ok (some text)) (hne : text ≠ "")
    (hp : S.parse text = .ok v) (ho : v.isObject = true) :
    decodeProfile L S t = .ok v ∧ decodeProfile L S t ≠ .ok .null := by
  have hv : decodeProfile L S t = .ok v := by
    rw [decodeProfile_of_decompress_text L S t text hd hne, hp]
    rfl
  refine ⟨hv, ?_⟩
  rw [hv]
  intro h
  have hnull : v = .null := Except.ok.inj h
  rw [hnull] at ho
  cases ho

/-- The token of the text `[1,2]` decodes to what the text parses to. -/
theorem decodeProfile_returns_parsed_object_array :
    referenceTransform.decompressFromEncodedURIComponent "QAABbAAAxAAAsAAAyAABd"
      = .ok (some "[1,2]") ∧
    "[1,2]" ≠ "" ∧ json.parse "[1,2]" = .ok (.array [.number 1, .number 2]) ∧
    (JSValue.array [.number 1, .number 2]).isObject = true ∧
    decodeProfile referenceTransform json "QAABbAAAxAAAsAAAyAABd"
      = .ok (.array [.number 1, .number 2]) ∧
    decodeProfile referenceTransform json "QAABbAAAxAAAsAAAyAABd" ≠ .ok .null :=
  ⟨rfl, by decide, rfl, rfl,
    decodeProfile_returns_parsed_object referenceTransform json "QAABbAAAxAAAsAAAyAABd"
      "[1,2]" (.array [.number 1, .number 2]) rfl (by decide) rfl rfl⟩

/-! ## The codec: failures of encoding -/

/-- C4: when the serializer throws on `data`, `encodeProfile data` raises no
fault and returns the empty token, whatever the transform is. -/
theorem encodeProfile_failure (L : CompactURLTransform) (S : StructuredSerializer)
    (data : JSValue) (e : JSError) (h : S.stringify data = .error e) :
    encodeProfile L S data = .ok "" :=
  encodeProfile_of_stringify_error L S data e h

/-- A profile whose name is a BigInt does not serialize and encodes to the
empty token. -/
theorem encodeProfile_failure_bigint :
    json.stringify (.object [("name", .bigint 1), ("links", .array [])])
      = .error (.typeError "Do not know how to serialize a BigInt") ∧
    encodeProfile referenceTransform json (.object [("name", .bigint 1), ("links", .array [])])
      = .ok "" :=
  ⟨rfl, encodeProfile_failure referenceTransform json
    (.object [("name", .bigint 1), ("links", .array [])])
    (.typeError "Do not know how to serialize a BigInt") rfl⟩

/-! ## The codec: tokens that are not products -/

theorem getLast?_cons_of_some {α : Type} (x : α) (l : List α) (y : α)
    (h : l.getLast? = some y) : (x :: l).getLast? = some y := by
  cases l with
  | nil => simp at h
  | cons z zs => simpa using h

theorem sextet_even (b0 b1 b2 b3 b4 : Bool) :
    sextet b0 b1 b2 b3 b4 false < 64 ∧ sextet b0 b1 b2 b3 b4 false % 2 = 0 := by
  cases b0 <;> cases b1 <;> cases b2 <;> cases b3 <;> cases b4 <;> decide

/-- The last character of a token of lz-string is a digit of even value: its
last bit is a bit of the filling. -/
theorem packBits_last : ∀ bits : List Bool,
    ∃ v, v < 64 ∧ v % 2 = 0 ∧ (packBits bits).getLast? = some (digitChar v)
  | [] => ⟨0, by decide, by decide, rfl⟩
  | [b0] => ⟨_, (sextet_even b0 false false false false).1,
      (sextet_even b0 false false false false).2, rfl⟩
  | [b0, b1] => ⟨_, (sextet_even b0 b1 false false false).1,
      (sextet_even b0 b1 false false false).2, rfl⟩
  | [b0, b1, b2] => ⟨_, (sextet_even b0 b1 b2 false false).1,
      (sextet_even b0 b1 b2 false false).2, rfl⟩
  | [b0, b1, b2, b3] => ⟨_, (sextet_even b0 b1 b2 b3 false).1,
      (sextet_even b0 b1 b2 b3 false).2, rfl⟩
  | [b0, b1, b2, b3, b4] => ⟨_, (sextet_even b0 b1 b2 b3 b4).1,
      (sextet_even b0 b1 b2 b3 b4).2, rfl⟩
  | b0 :: b1 :: b2 :: b3 :: b4 :: b5 :: rest => by
    obtain ⟨v, hlt, heven, hlast⟩ := packBits_last rest
    exact ⟨v, hlt, heven, by
      rw [packBits]
      exact getLast?_cons_of_some _ _ _ hlast⟩

/-- No text compresses to `AxB`: the last character `B` is the digit 1. -/
theorem lzCompress_ne_AxB (text : String) : lzCompress text ≠ "AxB" := by
  intro h
  obtain ⟨v, hlt, heven, hlast⟩ := packBits_last (compressBits (toCodeUnits text.data))
  have hdata : packBits (compressBits (toCodeUnits text.data)) = ['A', 'x', 'B'] :=
    congrArg String.data h
  rw [hdata] at hlast
  have hB : digitChar v = 'B' := (Option.some.inj hlast).symm
  have h1 := digitValue_digitChar v hlt
  rw [hB] at h1
  have h2 : digitValue 'B' = some 1 := rfl
  rw [h2] at h1
  have hv : v = 1 := (Option.some.inj h1).symm
  omega

/-- C5, as stated, fails: `AxB` is the token of no text (the text `0`
compresses to `AxA`), yet lz-string decompresses it to the text `0` and
`decodeProfile` returns the number 0 and not `null`. So lz-string does not
return absent for every text that is no product of `compress`. -/
theorem decodeProfile_accepts_nonproduct :
    lzString.compressToEncodedURIComponent (some "0") = .ok "AxA" ∧
    (∀ text, lzString.compressToEncodedURIComponent (some text) ≠ .ok "AxB") ∧
    lzString.decompressFromEncodedURIComponent "AxB" = .ok (some "0") ∧
    decodeProfile lzString json "AxB" = .ok (.number 0) ∧
    decodeProfile lzString json "AxB" ≠ .ok .null ∧
    ¬ lzString.Strict := by
  have hnon : ∀ text, lzString.compressToEncodedURIComponent (some text) ≠ .ok "AxB" :=
    fun text h => lzCompress_ne_AxB text (Except.ok.inj h)
  have hdec : lzString.decompressFromEncodedURIComponent "AxB" = .ok (some "0") := rfl
  have hres : decodeProfile lzString json "AxB" = .ok (.number 0) := rfl
  refine ⟨rfl, hnon, hdec, hres, ?_, ?_⟩
  · rw [hres]
    intro h
    cases h
  · intro hstrict
    have h := hstrict "AxB" hnon
    rw [hdec] at h
    cases h

/-- C5, amended: `decodeProfile` returns `null` for every text for which the
decompression step returns absent or the empty text, whatever the transform
and the parser are; and lz-string returns absent for `not-a-valid-token!!`,
so that `decodeProfile` returns `null` for it and raises no fault. -/
theorem decodeProfile_invalid_token (L : CompactURLTransform) (S : StructuredSerializer) :
    (∀ t, (L.decompressFromEncodedURIComponent t = .ok none ∨
        L.decompressFromEncodedURIComponent t = .ok (some "")) →
      decodeProfile L S t = .ok .null) ∧
    lzString.decompressFromEncodedURIComponent "not-a-valid-token!!" = .ok none ∧
    decodeProfile lzString S "not-a-valid-token!!" = .ok .null := by
  refine ⟨?_, rfl, decodeProfile_of_decompress_none lzString S _ rfl⟩
  intro t h
  rcases h with h | h
  · exact decodeProfile_of_decompress_none L S t h
  · exact decodeProfile_of_decompress_empty L S t h

/-! ## The codec: tokens -/

/-- A Profile that a serializer writes as a text encodes to a non-empty token. -/
theorem nonempty_of_stringify (L : CompactURLTransform) (S : StructuredSerializer)
    (p : Profile) (text : String) (hc : L.CompressSucceeds) (hl : L.Lossless)
    (he : L.EmptyIsAbsent) (hS : S.stringify p.toJS = .ok (some text)) :
    ∃ token, encodeProfile L S p.toJS = .ok token ∧ token ≠ "" := by
  obtain ⟨token, ht⟩ := hc text
  refine ⟨token, ?_, ?_⟩
  · rw [encodeProfile_of_stringify L S _ _ hS, ht]
    rfl
  · intro hempty
    have h1 := hl text token ht
    rw [hempty, he] at h1
    cases h1

/-- C6: with a transform that always compresses, is lossless and decompresses
the empty token to absent, every Profile encodes to a non-empty token. This
holds with the reference `JSON`, and with every serializer that writes the
object of the Profile as a text. -/
theorem encodeProfile_nonempty (L : CompactURLTransform) (p : Profile)
    (hc : L.CompressSucceeds) (hl : L.Lossless) (he : L.EmptyIsAbsent) :
    (∃ token, encodeProfile L json p.toJS = .ok token ∧ token ≠ "") ∧
    ∀ (S : StructuredSerializer) (text : String), S.stringify p.toJS = .ok (some text) →
      ∃ token, encodeProfile L S p.toJS = .ok token ∧ token ≠ "" := by
  obtain ⟨text, _, hw, _⟩ := json_faithful_profile p
  exact ⟨nonempty_of_stringify L json p text hc hl he hw,
    fun S text hS => nonempty_of_stringify L S p text hc hl he hS⟩

/-- The Profile with every optional field absent and no link encodes to a
non-empty token. -/
theorem encodeProfile_nonempty_emptyProfile :
    referenceTransform.CompressSucceeds ∧ referenceTransform.Lossless ∧
    referenceTransform.EmptyIsAbsent ∧
    (∃ token, encodeProfile referenceTransform json emptyProfile.toJS = .ok token ∧
      token ≠ "") ∧
    ∀ (S : StructuredSerializer) (text : String),
      S.stringify emptyProfile.toJS = .ok (some text) →
      ∃ token, encodeProfile referenceTransform S emptyProfile.toJS = .ok token ∧
        token ≠ "" :=
  ⟨referenceTransform_compressSucceeds, referenceTransform_lossless,
    referenceTransform_emptyIsAbsent,
    encodeProfile_nonempty referenceTransform emptyProfile
      referenceTransform_compressSucceeds referenceTransform_lossless
      referenceTransform_emptyIsAbsent⟩

/-- C7: with a transform whose products are written in the URL-safe alphabet,
`encodeProfile` returns a token for every input, a Profile or not, and every
character of the token is in the alphabet and is allowed as it is in a URL
query or fragment. -/
theorem encodeProfile_urlSafe (L : CompactURLTransform) (S : StructuredSerializer)
    (data : JSValue) (hsafe : L.UrlSafe) :
    ∃ token, encodeProfile L S data = .ok token ∧
      ∀ c ∈ token.data, c ∈ keyStrUriSafe.data ∧ needsNoPercentEncoding c = true := by
  rcases encodeProfile_returns L S data with h | ⟨jsonStr, token, _, hc, h⟩
  · exact ⟨"", h, fun c hc => by cases hc⟩
  · exact ⟨token, h, fun c hmem =>
      ⟨hsafe jsonStr token hc c hmem,
        alphabet_needsNoPercentEncoding c (hsafe jsonStr token hc c hmem)⟩⟩

/-- The token of `alice` is written in the URL-safe alphabet. -/
theorem encodeProfile_urlSafe_alice :
    referenceTransform.UrlSafe ∧
    ∃ token, encodeProfile referenceTransform json alice.toJS = .ok token ∧
      ∀ c ∈ token.data, c ∈ keyStrUriSafe.data ∧ needsNoPercentEncoding c = true :=
  ⟨referenceTransform_urlSafe,
    encodeProfile_urlSafe referenceTransform json alice.toJS referenceTransform_urlSafe⟩

/-! ## The codec: the empty token -/

/-- C8: with a transform that decompresses the empty token to absent,
`decodeProfile ""` is `null`; and whenever the transform returns absent or the
empty text for a token, `decodeProfile` returns `null` whatever the parser
would do. -/
theorem decodeProfile_empty (L : CompactURLTransform) (S : StructuredSerializer)
    (he : L.EmptyIsAbsent) :
    decodeProfile L S "" = .ok .null ∧
    ∀ t, (L.decompressFromEncodedURIComponent t = .ok none ∨
        L.decompressFromEncodedURIComponent t = .ok (some "")) →
      ∀ S1 : StructuredSerializer, decodeProfile L S1 t = .ok .null := by
  refine ⟨decodeProfile_of_decompress_none L S "" he, ?_⟩
  intro t h S1
  rcases h with h | h
  · exact decodeProfile_of_decompress_none L S1 t h
  · exact decodeProfile_of_decompress_empty L S1 t h

/-- The reference transform decompresses the empty token to absent, and the
empty token decodes to `null`. -/
theorem decodeProfile_empty_reference :
    referenceTransform.EmptyIsAbsent ∧
    decodeProfile referenceTransform json "" = .ok .null ∧
    ∀ t, (referenceTransform.decompressFromEncodedURIComponent t = .ok none ∨
        referenceTransform.decompressFromEncodedURIComponent t = .ok (some "")) →
      ∀ S1 : StructuredSerializer, decodeProfile referenceTransform S1 t = .ok .null :=
  ⟨referenceTransform_emptyIsAbsent,
    decodeProfile_empty referenceTransform json referenceTransform_emptyIsAbsent⟩

end Kwun
